import Mathlib

/-!
Verification of the ionsible 2-D game engine (TypeScript) against its
natural-language specification.

The development shallowly embeds the engine's data model and the operations
the claims are about:

* `space-time.ts`: `Duration` (milliseconds), `DerivablePoint` (the common
  carrier of `Point` / `Velocity` / `Acceleration`), `DirMag`, and the
  polar/cartesian conversions.  JavaScript numbers are modelled as real
  numbers; `Math.atan2 y x` is `Complex.arg ⟨x, y⟩`.
* `util.ts`: `clampRadians`, `shrinkRect`, `getRect` / `DynamicRect`.
  The JavaScript remainder `%` (truncated division) is `jsMod`, defined
  through `jsTrunc` (round toward zero).
* `shape.ts`: `TLBR` / `XYWH` rectangles, `getTLBR`, `Exceed`,
  `exceedsBounds`, `testExceed`.
* `sprite.ts`: `Sprite.update` (behavior-factory materialisation and the
  behavior chain) and `Sprite.destroy`.  A behavior instance is a state
  transformer on the sprite's observable fields plus an optional destructor
  tag (modelling `isDestroyable`); a factory is a function from the sprite
  state at materialisation time to an instance (modelling
  `x(this.game, this)`).
* `behavior.ts`: `Momentum`, `Acceleration`, `Thrust`, `Friction`,
  `SpeedLimited`, `SpeedRamp`, `RotateTowardPlus`, `Bounded` updates.
* `game.ts`: one tick of the `Game.start` interval callback.
* `keys.ts`: `Keys.connect` / `Keys.actions` / `Keys.pulse`.
-/

noncomputable section

/-- `space-time.ts` `Duration`: wraps a millisecond count (`_ms`). -/
structure Duration where
  ms : ℝ

/-- `Duration.s` getter: `this._ms / 1000`. -/
def Duration.s (d : Duration) : ℝ := d.ms / 1000

/-- `space-time.ts` `DerivablePoint`: an x/y pair.  The generic parameter
only restricts which values may be passed to `advanced`, so a single
structure models `Point`, `Velocity` and `Acceleration` alike. -/
structure DerivablePoint where
  x : ℝ
  y : ℝ

/-- `space-time.ts` `DirMag`: a direction (radians) and a magnitude. -/
structure DirMag where
  dir : ℝ
  mag : ℝ

/-- `JavaScript Math.atan2(y, x)`, modelled as the argument of the complex
number `x + y*I` (both land in `(-π, π]` and agree on all inputs). -/
def atan2 (y x : ℝ) : ℝ := Complex.arg ⟨x, y⟩

/-- `DerivablePoint.clone`: `new DerivablePoint(this._x, this._y)`. -/
def DerivablePoint.clone (p : DerivablePoint) : DerivablePoint := ⟨p.x, p.y⟩

/-- `DerivablePoint.advanced(v, t)`: `⟨x + v.x * t.s, y + v.y * t.s⟩`. -/
def DerivablePoint.advanced (p v : DerivablePoint) (t : Duration) : DerivablePoint :=
  ⟨p.x + v.x * t.s, p.y + v.y * t.s⟩

/-- `DerivablePoint.diff(other)`: `this - other`, componentwise. -/
def DerivablePoint.diff (p other : DerivablePoint) : DerivablePoint :=
  ⟨p.x - other.x, p.y - other.y⟩

/-- `DerivablePoint.distFrom(other)`: `sqrt(h*h + v*v)` with
`h = this.x - other.x`, `v = this.y - other.y`. -/
def DerivablePoint.distFrom (p other : DerivablePoint) : ℝ :=
  Real.sqrt ((p.x - other.x) * (p.x - other.x) + (p.y - other.y) * (p.y - other.y))

/-- `DerivablePoint.asDirMag()`: `{dir: atan2(y, x), mag: (0,0).distFrom(this)}`. -/
def DerivablePoint.asDirMag (p : DerivablePoint) : DirMag :=
  ⟨atan2 p.y p.x, DerivablePoint.distFrom ⟨0, 0⟩ p⟩

/-- The `DirMag` overload of the `DerivablePoint` constructor (used by the
`veloc(dm)` / `point(dm)` / `accel(dm)` factory functions):
`⟨mag * cos dir, mag * sin dir⟩`. -/
def velocDM (dm : DirMag) : DerivablePoint :=
  ⟨dm.mag * Real.cos dm.dir, dm.mag * Real.sin dm.dir⟩

/-- JavaScript's conversion to integer by truncation toward zero, as used
by the `%` operator on numbers. -/
def jsTrunc (x : ℝ) : ℤ := if 0 ≤ x then ⌊x⌋ else -⌊-x⌋

/-- JavaScript's remainder `a % b`: `a - b * trunc(a / b)` (agrees with the
floor-based remainder whenever `a ≥ 0` and `b > 0`, the only way
`clampRadians` uses it). -/
def jsMod (a b : ℝ) : ℝ := a - b * jsTrunc (a / b)

/-- `util.ts` `clampRadians(dir)`: reduce an angle into `[0, tau]` using
the JavaScript `%` operator; the negative branch computes
`tau - ((-dir) % tau)`. -/
def clampRadians (dir : ℝ) : ℝ :=
  let tau := Real.pi * 2
  if dir < 0 then tau - jsMod (-dir) tau else jsMod dir tau

/-- `shape.ts` `TLBR`: rectangle as top, left, bottom, right. -/
structure TLBR where
  t : ℝ
  l : ℝ
  b : ℝ
  r : ℝ

/-- `shape.ts` `XYWH`: rectangle as top-left corner plus width and height. -/
structure XYWH where
  x : ℝ
  y : ℝ
  w : ℝ
  h : ℝ

/-- `shape.ts` `Rect = TLBR | XYWH`. -/
inductive Rect where
  | tlbr : TLBR → Rect
  | xywh : XYWH → Rect

/-- `shape.ts` `getTLBR`: the `XYWH` branch returns
`{l: x, t: y, r: x + w, b: y + h}`. -/
def getTLBR : Rect → TLBR
  | .tlbr v => v
  | .xywh v => ⟨v.y, v.x, v.y + v.h, v.x + v.w⟩

/-- `util.ts` `shrinkRect(arect, brect)`: componentwise difference of the
`TLBR` forms, returned as a `TLBR` rectangle. -/
def shrinkRect (arect brect : Rect) : Rect :=
  let aR := getTLBR arect
  let bR := getTLBR brect
  .tlbr ⟨aR.t - bR.t, aR.l - bR.l, aR.b - bR.b, aR.r - bR.r⟩

/-- `shape.ts` `Exceed`: signed per-axis overshoot of a bounds check. -/
structure Exceed where
  x : ℝ
  y : ℝ

/-- `shape.ts` `testExceed(e)`: `e.x != 0 || e.y != 0`. -/
def testExceed (e : Exceed) : Prop := e.x ≠ 0 ∨ e.y ≠ 0

instance (e : Exceed) : Decidable (testExceed e) := by
  unfold testExceed
  infer_instance

/-- `shape.ts` `exceedsBounds(pt, rect)`: per axis, `pt - l` (negative)
when below the low side, `pt - r` (positive) when above the high side,
else `0`. -/
def exceedsBounds (pt : DerivablePoint) (rect : Rect) : Exceed :=
  let tlbr := getTLBR rect
  ⟨if pt.x < tlbr.l then pt.x - tlbr.l else if pt.x > tlbr.r then pt.x - tlbr.r else 0,
   if pt.y < tlbr.t then pt.y - tlbr.t else if pt.y > tlbr.b then pt.y - tlbr.b else 0⟩

/-- The observable data fields of `sprite.ts` `Sprite`: `lastPos`, `pos`,
`vel`, `accel`, `rotation`, and the sprite body's bounding box
(`this.body.bounds`, the only part of `body` the claims touch). -/
structure SpriteState where
  lastPos : DerivablePoint
  pos : DerivablePoint
  vel : DerivablePoint
  accel : DerivablePoint
  rotation : ℝ
  bodyBounds : Rect

/-- An instantiated behavior (`IUpdatable`): its `update` method as a state
transformer, plus an optional destructor identity.  `destructorId = some i`
models a behavior for which `isDestroyable` holds (it exposes `destroy()`),
and `i` identifies that destructor call in the observed trace. -/
structure BehaviorInst where
  upd : SpriteState → Duration → SpriteState
  destructorId : Option ℕ

/-- `IBehaviorFactory`: `(game, sprite) => IUpdatable`.  The factory is
applied to the sprite's state at materialisation time (the `game` argument
carries no information used by any claim). -/
def BehaviorFactory : Type := SpriteState → BehaviorInst

/-- `sprite.ts` `Sprite`: data fields plus the factory list (`behaviors`,
set to `undefined` after the first update) and the instantiated list
(`behaviorsInst`). -/
structure Sprite where
  behaviors : Option (List BehaviorFactory)
  behaviorsInst : List BehaviorInst
  state : SpriteState

/-- `Sprite.update(delta)`: record `lastPos = pos.clone()`; on the first
call materialise `behaviorsInst = behaviors.map(x => x(game, this))` and
discard `behaviors`; then run each instantiated behavior's `update(delta)`
in list order. -/
def Sprite.update (sp : Sprite) (delta : Duration) : Sprite :=
  let st0 := { sp.state with lastPos := sp.state.pos.clone }
  match sp.behaviors with
  | some bs =>
      let inst := bs.map (fun f => f st0)
      { behaviors := none
        behaviorsInst := inst
        state := inst.foldl (fun st b => b.upd st delta) st0 }
  | none =>
      { behaviors := none
        behaviorsInst := sp.behaviorsInst
        state := sp.behaviorsInst.foldl (fun st b => b.upd st delta) st0 }

/-- The `while (bs.length > 0)` loop of `Sprite.destroy`: repeatedly pop
the last element, invoking its destructor when it has one.  Returns the
destructor calls in the order they are made, together with the final
(drained) list. -/
def destroyLoop (bs : List BehaviorInst) : List ℕ × List BehaviorInst :=
  match h : bs.getLast? with
  | none => ([], bs)
  | some b =>
      let rest := destroyLoop bs.dropLast
      ((match b.destructorId with | some i => [i] | none => []) ++ rest.1, rest.2)
termination_by bs.length
decreasing_by
  have hne : bs ≠ [] := by
    intro hbs
    rw [hbs] at h
    simp at h
  have hlen : bs.length ≠ 0 := fun h0 => hne (List.length_eq_zero.mp h0)
  simp [List.length_dropLast]
  omega

/-- `Sprite.destroy()`: drain `behaviorsInst`, calling `destroy()` on each
popped element that is an `IDestroyable`. -/
def Sprite.destroy (sp : Sprite) : List ℕ × Sprite :=
  let res := destroyLoop sp.behaviorsInst
  (res.1, { sp with behaviorsInst := res.2 })

/-- `behavior.ts` `MomentumClass.update`:
`sprite.pos = sprite.pos.advanced(sprite.vel, delta)`. -/
def momentumUpdate (s : SpriteState) (delta : Duration) : SpriteState :=
  { s with pos := s.pos.advanced s.vel delta }

/-- `behavior.ts` `Acceleration` update:
`sprite.vel = sprite.vel.advanced(sprite.accel, delta)`. -/
def accelerationUpdate (s : SpriteState) (_delta : Duration) : SpriteState :=
  { s with vel := s.vel.advanced s.accel _delta }

/-- `behavior.ts` `ThrustClass.update`:
`sprite.accel = accel(strength * a.x, strength * a.y)`. -/
def thrustUpdate (strength : ℝ) (s : SpriteState) (_delta : Duration) : SpriteState :=
  { s with accel := ⟨strength * s.accel.x, strength * s.accel.y⟩ }

/-- `behavior.ts` `FrictionClass.update`: convert `vel` to polar, subtract
`strength * delta.s` from the magnitude, stopping dead (`veloc(0,0)`) when
the subtraction would not leave a positive magnitude. -/
def frictionUpdate (strength : ℝ) (s : SpriteState) (delta : Duration) : SpriteState :=
  let dirMag := s.vel.asDirMag
  let adjFric := strength * delta.s
  if adjFric ≥ dirMag.mag then
    { s with vel := ⟨0, 0⟩ }
  else
    { s with vel := velocDM ⟨dirMag.dir, dirMag.mag - adjFric⟩ }

/-- `behavior.ts` `SpeedLimitedClass.update`: convert `vel` to polar, cap
the magnitude at `limit`, and convert back (the conversion runs even when
the cap does not bite). -/
def speedLimitedUpdate (limit : ℝ) (s : SpriteState) (_delta : Duration) : SpriteState :=
  let dm := s.vel.asDirMag
  let dm' := if dm.mag > limit then DirMag.mk dm.dir limit else dm
  { s with vel := velocDM dm' }

/-- `behavior.ts` `SpeedRampClass`: the constructor derives
`friction = maxSpeed / rampDown` and `thrust = maxSpeed / rampUp + friction`
and materialises `[Thrust thrust, Acceleration, Friction friction,
SpeedLimited maxSpeed, Momentum]`; `update` folds over them in order. -/
def speedRampUpdate (maxSpeed rampUp rampDown : ℝ) (s : SpriteState) (delta : Duration) :
    SpriteState :=
  let friction := maxSpeed / rampDown
  let thrust := maxSpeed / rampUp + friction
  let behaviorsInst : List (SpriteState → Duration → SpriteState) :=
    [thrustUpdate thrust, accelerationUpdate, frictionUpdate friction,
     speedLimitedUpdate maxSpeed, momentumUpdate]
  behaviorsInst.foldl (fun st u => u st delta) s

/-- The composite described by the spec for `SpeedRamp` (refinement side):
run, in sequence, Thrust(t), the Acceleration integrator, Friction(f),
SpeedLimited(maxSpeed) and Momentum, with `f = maxSpeed / rampDown` and
`t = maxSpeed / rampUp + f`. -/
def speedRampSpecComposite (maxSpeed rampUp rampDown : ℝ) (s : SpriteState) (delta : Duration) :
    SpriteState :=
  let f := maxSpeed / rampDown
  let t := maxSpeed / rampUp + f
  momentumUpdate
    (speedLimitedUpdate maxSpeed
      (frictionUpdate f
        (accelerationUpdate
          (thrustUpdate t s delta) delta) delta) delta) delta

/-- The desired facing angle computed by `RotateTowardPlusClass.update`:
`(pos - dest).asDirMag().dir - π/2 + addRot`. -/
def rtpDesiredDir (dest : DerivablePoint) (addRot : ℝ) (s : SpriteState) : ℝ :=
  (s.pos.diff dest).asDirMag.dir - Real.pi / 2 + addRot

/-- The signed rotation `RotateTowardPlusClass.update` decides to make
(before speed clamping): `clampRadians(desiredDir - rotation)`, shifted by
`-2π` when it exceeds `π` so the shorter angular path is taken. -/
def rtpDesiredRot (dest : DerivablePoint) (addRot : ℝ) (s : SpriteState) : ℝ :=
  let desiredRot := clampRadians (rtpDesiredDir dest addRot s - s.rotation)
  if desiredRot > Real.pi then desiredRot - 2 * Real.pi else desiredRot

/-- `behavior.ts` `RotateTowardPlusClass.update`: when `getVal(loc)` is
undefined the state is untouched; otherwise add to `rotation` the desired
rotation scaled down by `maxRot / |desiredRot|` when that ratio is below
one (`maxRot = rotSpeed * delta.s`). -/
def rotateTowardPlusUpdate (loc : Option DerivablePoint) (addRot rotSpeed : ℝ)
    (s : SpriteState) (delta : Duration) : SpriteState :=
  match loc with
  | none => s
  | some dest =>
      let maxRot := rotSpeed * delta.s
      let desiredRot := rtpDesiredRot dest addRot s
      let scaleDown := maxRot / |desiredRot|
      { s with rotation := s.rotation + desiredRot * (if scaleDown < 1 then scaleDown else 1) }

/-- `game.ts` `Game` state: pause flag, elapsed game time, the `fps` and
`maxFramesSkipped` configuration, and the active scene (modelled as the
flat list of its sprites). -/
structure GameState where
  paused : Bool
  elapsed : Duration
  fps : ℝ
  maxFramesSkipped : ℝ
  scene : List Sprite

/-- `game.ts` `Game.updateScene`: `update(delta)` on every scene element. -/
def updateScene (scene : List Sprite) (delta : Duration) : List Sprite :=
  scene.map (fun sp => Sprite.update sp delta)

/-- One tick of the `setInterval` callback in `game.ts` `Game.start`,
taking the wall-clock delta since the previous tick as input: clamp the
delta to `1000/fps * maxFramesSkipped` ms; unless paused, accumulate
`elapsed` and update the scene; finally render the (possibly updated)
scene.  Returns the new game state, the delta used for updating, and the
scene passed to `camera.render`. -/
def gameTick (g : GameState) (wallDelta : Duration) : GameState × Duration × List Sprite :=
  let maxDelta : Duration := ⟨1000 / g.fps * g.maxFramesSkipped⟩
  let delta := if wallDelta.ms > maxDelta.ms then maxDelta else wallDelta
  let g' :=
    if g.paused then g
    else { g with
            elapsed := ⟨g.elapsed.ms + delta.ms⟩
            scene := updateScene g.scene delta }
  (g', delta, g'.scene)

/-- `util.ts` `DynamicRect`: a rectangle, or a `RectCalculator` producing
one from the game and sprite. -/
inductive DynamicRect where
  | rect : Rect → DynamicRect
  | rectCalc : (GameState → SpriteState → Rect) → DynamicRect

/-- `util.ts` `getRect`: apply a `RectCalculator`, or pass a plain
rectangle through. -/
def getRect : DynamicRect → GameState → SpriteState → Rect
  | .rect r, _, _ => r
  | .rectCalc f, g, s => f g s

/-- `behavior.ts` `BoundedClass.update`: shrink the effective rectangle by
the sprite body's bounds, compute the exceedance of `pos`, and invoke the
callback (modelled by the returned `some (rect, exceed)`) exactly when
`testExceed` holds. -/
def boundedUpdate (drect : DynamicRect) (g : GameState) (s : SpriteState) :
    Option (Rect × Exceed) :=
  let bodyBB := s.bodyBounds
  let rect := shrinkRect (getRect drect g s) bodyBB
  let exceed := exceedsBounds s.pos rect
  if testExceed exceed then some (rect, exceed) else none

end

/-- `keys.ts`: key names and action labels are strings. -/
abbrev Key := String

/-- `keys.ts`: action labels returned by `Keys.pulse`. -/
abbrev Label := String

/-- The `connections` map of `keys.ts` `Keys`.  Handlers registered through
`Keys.actions` only ever set one action label in the tracker, so a
connection is modelled by the label its handler sets. -/
def Conns : Type := Key → Option Label

/-- `Keys.connect(key, handler)`: `this.connections[key] = handler` —
a later registration for the same key overwrites the earlier one. -/
def Keys.connect (c : Conns) (key : Key) (lab : Label) : Conns :=
  fun k => if k = key then some lab else c k

/-- `Keys.actions(actions)`: for each label (in insertion order) and each
key in its key list, `connect` the key to a handler that marks the label
in the action tracker. -/
def Keys.actions (c : Conns) (m : List (Label × List Key)) : Conns :=
  m.foldl (fun c p => p.2.foldl (fun c k => Keys.connect c k p.1) c) c

/-- `Keys.pulse()`: start from an empty action tracker and, for each
currently held key, run its connected handler (which marks the handler's
label); return the tracker. -/
def Keys.pulse (c : Conns) (pressed : List Key) : Label → Bool :=
  pressed.foldl
    (fun tracker k =>
      match c k with
      | some lab => fun l => if l = lab then true else tracker l
      | none => tracker)
    (fun _ => false)

/-- A key `k` is associated with label `l` in an `actions` argument when
some entry for `l` lists `k`. -/
def associatedIn (m : List (Label × List Key)) (k : Key) (l : Label) : Prop :=
  ∃ p ∈ m, p.1 = l ∧ k ∈ p.2

instance (m : List (Label × List Key)) (k : Key) (l : Label) :
    Decidable (associatedIn m k l) := by
  unfold associatedIn
  infer_instance

/-- The label of the last `actions` entry whose key list contains `k`
(searching the registration list from the most recent entry backward). -/
def lastAssoc (m : List (Label × List Key)) (k : Key) : Option Label :=
  (m.reverse.find? (fun p => decide (k ∈ p.2))).map (fun p => p.1)

/-- The `Momentum` behavior factory (`behavior.ts`): materialises an
instance whose update is `momentumUpdate`.  It exposes no destructor of
its own. -/
noncomputable def Momentum : BehaviorFactory := fun _ => ⟨momentumUpdate, none⟩

/-- A sprite state with the given position, velocity and rotation, zero
`lastPos` / `accel`, and the `body.None` bounding box `{x:0,y:0,w:0,h:0}`
(the `Sprite` class defaults).  Used to instantiate theorems at concrete
inputs. -/
noncomputable def mkDemoState (p v : DerivablePoint) (rot : ℝ) : SpriteState :=
  ⟨⟨0, 0⟩, p, v, ⟨0, 0⟩, rot, Rect.xywh ⟨0, 0, 0, 0⟩⟩

/-- A game with the default configuration (`fps = 50`,
`maxFramesSkipped = 5`), not paused, and an empty scene. -/
noncomputable def demoGame : GameState := ⟨false, ⟨0⟩, 50, 5, []⟩

theorem jsTrunc_of_nonneg {x : ℝ} (hx : 0 ≤ x) : jsTrunc x = ⌊x⌋ := if_pos hx

theorem two_pi_pos : (0 : ℝ) < Real.pi * 2 := by positivity

theorem jsMod_nonneg_of {a b : ℝ} (ha : 0 ≤ a) (hb : 0 < b) : 0 ≤ jsMod a b := by
  unfold jsMod
  rw [jsTrunc_of_nonneg (div_nonneg ha hb.le)]
  have h1 : (⌊a / b⌋ : ℝ) ≤ a / b := Int.floor_le _
  have h2 : b * (a / b) = a := by field_simp
  nlinarith

theorem jsMod_lt_of {a b : ℝ} (ha : 0 ≤ a) (hb : 0 < b) : jsMod a b < b := by
  unfold jsMod
  rw [jsTrunc_of_nonneg (div_nonneg ha hb.le)]
  have h1 : a / b < ⌊a / b⌋ + 1 := Int.lt_floor_add_one _
  have h2 : b * (a / b) = a := by field_simp
  nlinarith

theorem jsMod_congr {a b : ℝ} (ha : 0 ≤ a) (hb : 0 < b) :
    ∃ k : ℤ, jsMod a b - a = b * k := by
  refine ⟨-⌊a / b⌋, ?_⟩
  unfold jsMod
  rw [jsTrunc_of_nonneg (div_nonneg ha hb.le)]
  push_cast
  ring

theorem clampRadians_nonneg (d : ℝ) : 0 ≤ clampRadians d := by
  simp only [clampRadians]
  by_cases hd : d < 0
  · rw [if_pos hd]
    have := jsMod_lt_of (a := -d) (b := Real.pi * 2) (by linarith) two_pi_pos
    linarith
  · rw [if_neg hd]
    exact jsMod_nonneg_of (by linarith) two_pi_pos

theorem clampRadians_le (d : ℝ) : clampRadians d ≤ Real.pi * 2 := by
  simp only [clampRadians]
  by_cases hd : d < 0
  · rw [if_pos hd]
    have := jsMod_nonneg_of (a := -d) (b := Real.pi * 2) (by linarith) two_pi_pos
    linarith
  · rw [if_neg hd]
    have := jsMod_lt_of (a := d) (b := Real.pi * 2) (by linarith) two_pi_pos
    linarith

theorem clampRadians_congr (d : ℝ) :
    ∃ k : ℤ, clampRadians d - d = Real.pi * 2 * k := by
  simp only [clampRadians]
  by_cases hd : d < 0
  · rw [if_pos hd]
    obtain ⟨k, hk⟩ := jsMod_congr (a := -d) (b := Real.pi * 2) (by linarith) two_pi_pos
    refine ⟨1 - k, ?_⟩
    have hr : Real.pi * 2 * ((1 : ℤ) - k : ℤ) = Real.pi * 2 - Real.pi * 2 * k := by
      push_cast
      ring
    rw [hr]
    linarith
  · rw [if_neg hd]
    exact jsMod_congr (by linarith) two_pi_pos

theorem atan2_mem_Ioc (y x : ℝ) : atan2 y x ∈ Set.Ioc (-Real.pi) Real.pi :=
  Complex.arg_mem_Ioc _

theorem asDirMag_mag_nonneg (p : DerivablePoint) : 0 ≤ p.asDirMag.mag :=
  Real.sqrt_nonneg _

theorem velocDM_mag (dm : DirMag) : (velocDM dm).asDirMag.mag = |dm.mag| := by
  simp only [velocDM, DerivablePoint.asDirMag, DerivablePoint.distFrom]
  have hs := Real.sin_sq_add_cos_sq dm.dir
  have h : (dm.mag * Real.cos dm.dir - 0) * (dm.mag * Real.cos dm.dir - 0) +
      (dm.mag * Real.sin dm.dir - 0) * (dm.mag * Real.sin dm.dir - 0) = dm.mag ^ 2 := by
    nlinarith
  rw [show ((0 : ℝ) - dm.mag * Real.cos dm.dir) * ((0 : ℝ) - dm.mag * Real.cos dm.dir) +
      ((0 : ℝ) - dm.mag * Real.sin dm.dir) * ((0 : ℝ) - dm.mag * Real.sin dm.dir)
      = dm.mag ^ 2 by nlinarith]
  exact Real.sqrt_sq_eq_abs _

theorem velocDM_dir (dm : DirMag) (hm : 0 < dm.mag)
    (hd : dm.dir ∈ Set.Ioc (-Real.pi) Real.pi) :
    (velocDM dm).asDirMag.dir = dm.dir := by
  simp only [velocDM, DerivablePoint.asDirMag, atan2]
  have hz : (⟨dm.mag * Real.cos dm.dir, dm.mag * Real.sin dm.dir⟩ : ℂ)
      = (dm.mag : ℂ) * (Complex.cos dm.dir + Complex.sin dm.dir * Complex.I) := by
    apply Complex.ext <;>
      simp [Complex.cos_ofReal_re, Complex.sin_ofReal_re, Complex.cos_ofReal_im,
        Complex.sin_ofReal_im, Complex.mul_re, Complex.mul_im]
  rw [hz, Complex.arg_real_mul _ hm, Complex.arg_cos_add_sin_mul_I hd]

theorem destroyLoop_spec (bs : List BehaviorInst) :
    destroyLoop bs = (bs.reverse.filterMap (fun b => b.destructorId), []) := by
  induction bs using List.reverseRecOn with
  | nil =>
      rw [destroyLoop]
      simp
  | append_singleton ys y ih =>
      rw [destroyLoop]
      split
      · next h =>
          rw [List.getLast?_concat] at h
          exact absurd h (by simp)
      · next b h =>
          rw [List.getLast?_concat] at h
          have hb : b = y := (Option.some.inj h).symm
          subst hb
          rw [List.dropLast_concat, ih]
          simp only [List.reverse_append, List.reverse_cons, List.reverse_nil,
            List.nil_append, List.singleton_append, List.filterMap_cons]
          cases hbd : b.destructorId <;> simp [hbd]

theorem pulse_foldl_iff (c : Conns) (pressed : List Key) (l : Label) (tr : Label → Bool) :
    (pressed.foldl
        (fun tracker k =>
          match c k with
          | some lab => fun l' => if l' = lab then true else tracker l'
          | none => tracker)
        tr) l = true
      ↔ (tr l = true ∨ ∃ k ∈ pressed, c k = some l) := by
  induction pressed generalizing tr with
  | nil => simp
  | cons k ks ih =>
      simp only [List.foldl_cons]
      rw [ih]
      cases hck : c k with
      | none =>
          simp only [hck]
          constructor
          · rintro (h | h)
            · exact Or.inl h
            · exact Or.inr ⟨h.choose, List.mem_cons_of_mem _ h.choose_spec.1, h.choose_spec.2⟩
          · rintro (h | ⟨k', hk', hc'⟩)
            · exact Or.inl h
            · rcases List.mem_cons.mp hk' with rfl | hmem
              · rw [hck] at hc'
                exact absurd hc' (by simp)
              · exact Or.inr ⟨k', hmem, hc'⟩
      | some lab =>
          simp only [hck]
          by_cases hl : l = lab
          · subst hl
            simp only [if_pos rfl]
            constructor
            · intro _
              exact Or.inr ⟨k, List.mem_cons_self _ _, hck⟩
            · intro _
              left
              rfl
          · simp only [if_neg hl]
            constructor
            · rintro (h | ⟨k', hk', hc'⟩)
              · exact Or.inl h
              · exact Or.inr ⟨k', List.mem_cons_of_mem _ hk', hc'⟩
            · rintro (h | ⟨k', hk', hc'⟩)
              · exact Or.inl h
              · rcases List.mem_cons.mp hk' with rfl | hmem
                · rw [hck] at hc'
                  exact absurd (Option.some.inj hc').symm hl
                · exact Or.inr ⟨k', hmem, hc'⟩

theorem pulse_eq_true_iff (c : Conns) (pressed : List Key) (l : Label) :
    Keys.pulse c pressed l = true ↔ ∃ k ∈ pressed, c k = some l := by
  unfold Keys.pulse
  rw [pulse_foldl_iff]
  simp

theorem connectList_lookup (c : Conns) (lab : Label) (ks : List Key) (k : Key) :
    (ks.foldl (fun c' k' => Keys.connect c' k' lab) c) k
      = if k ∈ ks then some lab else c k := by
  induction ks generalizing c with
  | nil => simp
  | cons a as ih =>
      simp only [List.foldl_cons]
      rw [ih]
      by_cases hk : k ∈ as
      · simp [hk]
      · by_cases hka : k = a
        · subst hka
          simp [Keys.connect, hk]
        · simp [Keys.connect, hk, hka]

theorem lastAssoc_cons (p : Label × List Key) (ps : List (Label × List Key)) (k : Key) :
    lastAssoc (p :: ps) k
      = match lastAssoc ps k with
        | some l => some l
        | none => if k ∈ p.2 then some p.1 else none := by
  unfold lastAssoc
  rw [List.reverse_cons, List.find?_append]
  cases hf : (ps.reverse.find? (fun q => decide (k ∈ q.2))) with
  | none =>
      simp only [hf, Option.map_none', Option.none_or]
      by_cases hk : k ∈ p.2 <;> simp [hk]
  | some q =>
      simp [hf]

theorem actions_lookup (c : Conns) (m : List (Label × List Key)) (k : Key) :
    Keys.actions c m k
      = match lastAssoc m k with
        | some l => some l
        | none => c k := by
  induction m generalizing c with
  | nil => simp [Keys.actions, lastAssoc]
  | cons p ps ih =>
      show Keys.actions (p.2.foldl (fun c' k' => Keys.connect c' k' p.1) c) ps k = _
      rw [ih, connectList_lookup, lastAssoc_cons]
      cases lastAssoc ps k with
      | some l => simp
      | none =>
          by_cases hk : k ∈ p.2 <;> simp [hk]

theorem actions_empty_lookup (m : List (Label × List Key)) (k : Key) :
    Keys.actions (fun _ => none) m k = lastAssoc m k := by
  rw [actions_lookup]
  cases lastAssoc m k <;> simp

theorem lastAssoc_associatedIn {m : List (Label × List Key)} {k : Key} {l : Label}
    (h : lastAssoc m k = some l) : associatedIn m k l := by
  unfold lastAssoc at h
  cases hf : (m.reverse.find? (fun q => decide (k ∈ q.2))) with
  | none => rw [hf] at h; simp at h
  | some q =>
      rw [hf] at h
      simp only [Option.map_some'] at h
      have hq : q ∈ m.reverse := List.mem_of_find?_eq_some hf
      have hpred := List.find?_some hf
      exact ⟨q, List.mem_reverse.mp hq, Option.some.inj h, of_decide_eq_true hpred⟩

/-- C3: for every `maxSpeed`, `rampUp`, `rampDown`, a
`SpeedRamp(maxSpeed, rampUp, rampDown)` instance's `update(delta)` is
exactly the sequential composition of `Thrust(t)`, the Acceleration
integrator, `Friction(f)`, `SpeedLimited(maxSpeed)` and `Momentum`, with
`f = maxSpeed / rampDown` and `t = maxSpeed / rampUp + f`. -/
theorem speedRamp_refines_composite (maxSpeed rampUp rampDown : ℝ)
    (s : SpriteState) (delta : Duration) :
    speedRampUpdate maxSpeed rampUp rampDown s delta
      = speedRampSpecComposite maxSpeed rampUp rampDown s delta := rfl

/-- C10 (amended): for every `d`, `clampRadians d` lies in `[0, 2π]`
(the upper end `2π` is attained, e.g. at `d = -2π`) and is congruent to
`d` modulo `2π`. -/
theorem clampRadians_spec (d : ℝ) :
    0 ≤ clampRadians d ∧ clampRadians d ≤ 2 * Real.pi ∧
    ∃ k : ℤ, clampRadians d - d = 2 * Real.pi * k := by
  refine ⟨clampRadians_nonneg d, ?_, ?_⟩
  · have := clampRadians_le d
    linarith
  · obtain ⟨k, hk⟩ := clampRadians_congr d
    refine ⟨k, ?_⟩
    rw [hk]
    ring

/-- C10 counterexample: at `d = -(2π)` the code returns exactly `2π`,
so the claimed strict bound `clampRadians d < 2π` fails. -/
theorem clampRadians_counterexample :
    clampRadians (-(Real.pi * 2)) = Real.pi * 2 ∧
    ¬ clampRadians (-(Real.pi * 2)) < Real.pi * 2 := by
  have hpos : (0 : ℝ) < Real.pi * 2 := two_pi_pos
  have h1 : clampRadians (-(Real.pi * 2)) = Real.pi * 2 := by
    have hlt : -(Real.pi * 2) < 0 := by linarith
    simp only [clampRadians]
    rw [if_pos hlt, neg_neg]
    have hm : jsMod (Real.pi * 2) (Real.pi * 2) = 0 := by
      unfold jsMod
      rw [div_self (ne_of_gt hpos)]
      norm_num [jsTrunc]
    rw [hm]
    ring
  exact ⟨h1, by rw [h1]; exact lt_irrefl _⟩

/-- C9: `Sprite.destroy` calls `destroy()` on exactly the instantiated
behaviors that expose a destructor, in reverse instantiation order, and
leaves the instantiated-behavior list empty. -/
theorem sprite_destroy_spec (sp : Sprite) :
    (sp.destroy).1 = sp.behaviorsInst.reverse.filterMap (fun b => b.destructorId) ∧
    (sp.destroy).2.behaviorsInst = [] := by
  unfold Sprite.destroy
  rw [destroyLoop_spec]
  exact ⟨rfl, rfl⟩

/-- C8: on each tick, the delta used for updating is the wall-clock delta
clamped to `1000/fps * maxFramesSkipped` ms; when paused, neither the
scene nor the elapsed time changes (the whole game state is untouched);
when not paused, elapsed time accumulates the used delta and the scene is
updated with it; and the render call receives the tick's final scene
whether paused or not. -/
theorem gameTick_spec (g : GameState) (w : Duration) :
    ((gameTick g w).2.1.ms ≤ 1000 / g.fps * g.maxFramesSkipped) ∧
    (g.paused = true → (gameTick g w).1 = g) ∧
    (g.paused = false →
      (gameTick g w).1.elapsed.ms = g.elapsed.ms + (gameTick g w).2.1.ms ∧
      (gameTick g w).1.scene = updateScene g.scene (gameTick g w).2.1) ∧
    (gameTick g w).2.2 = (gameTick g w).1.scene := by
  refine ⟨?_, ?_, ?_, ?_⟩
  · simp only [gameTick]
    by_cases hw : w.ms > 1000 / g.fps * g.maxFramesSkipped
    · rw [if_pos hw]
    · rw [if_neg hw]
      exact le_of_not_lt hw
  · intro hp
    simp [gameTick, hp]
  · intro hp
    constructor <;> simp [gameTick, hp]
  · cases hp : g.paused <;> simp [gameTick, hp]

/-- Closed witness for C8 at a concrete paused game: the tick leaves the
game state untouched. -/
theorem gameTick_spec_witness :
    (gameTick ⟨true, ⟨0⟩, 50, 5, []⟩ ⟨12345⟩).1 = (⟨true, ⟨0⟩, 50, 5, []⟩ : GameState) :=
  (gameTick_spec ⟨true, ⟨0⟩, 50, 5, []⟩ ⟨12345⟩).2.1 rfl

/-- C1: `Sprite.update(delta)` first records `lastPos` as a copy of `pos`.
On the first call the behavior factories are materialised exactly once, in
list order, with the factory list then discarded; every call (first or
later) folds the instantiated behaviors' `update(delta)` over the
`lastPos`-refreshed state strictly in declaration order, and a second call
reuses the same instantiated behaviors without re-instantiating. -/
theorem sprite_update_spec (sp : Sprite) (d d2 : Duration) :
    (∀ bs, sp.behaviors = some bs →
      (sp.update d).behaviorsInst
          = bs.map (fun f => f { sp.state with lastPos := sp.state.pos.clone }) ∧
      (sp.update d).behaviors = none ∧
      (sp.update d).state
          = (bs.map (fun f => f { sp.state with lastPos := sp.state.pos.clone })).foldl
              (fun st b => b.upd st d) { sp.state with lastPos := sp.state.pos.clone }) ∧
    (sp.behaviors = none →
      (sp.update d).behaviorsInst = sp.behaviorsInst ∧
      (sp.update d).state
          = sp.behaviorsInst.foldl (fun st b => b.upd st d)
              { sp.state with lastPos := sp.state.pos.clone }) ∧
    ((sp.update d).update d2).behaviorsInst = (sp.update d).behaviorsInst ∧
    ((sp.update d).update d2).behaviors = none := by
  refine ⟨?_, ?_, ?_, ?_⟩
  · intro bs hb
    refine ⟨?_, ?_, ?_⟩ <;> simp [Sprite.update, hb]
  · intro hb
    constructor <;> simp [Sprite.update, hb]
  · cases hb : sp.behaviors <;> simp [Sprite.update, hb]
  · cases hb : sp.behaviors <;> simp [Sprite.update, hb]

/-- Closed witness for C1 at a sprite with one factory: the first update
discards the factory list and materialises a singleton instance list. -/
theorem sprite_update_spec_witness :
    (Sprite.update ⟨some [Momentum], [], mkDemoState ⟨0, 0⟩ ⟨0, 0⟩ 0⟩ ⟨100⟩).behaviors = none :=
  ((sprite_update_spec ⟨some [Momentum], [], mkDemoState ⟨0, 0⟩ ⟨0, 0⟩ 0⟩ ⟨100⟩ ⟨100⟩).1
    [Momentum] rfl).2.1

/-- C2: `Momentum`'s update sets `pos` to `pos.advanced(vel, delta)` and
changes no other sprite field; a sprite whose only behavior is `Momentum`,
at `pos=(0,0)` with `vel=(10,0)` units/sec, moved once with `delta=500ms`,
ends at `pos=(5,0)`. -/
theorem momentum_spec (s : SpriteState) (d : Duration) (sp : Sprite)
    (hb : sp.behaviors = some [Momentum]) (hp : sp.state.pos = ⟨0, 0⟩)
    (hv : sp.state.vel = ⟨10, 0⟩) :
    momentumUpdate s d = { s with pos := s.pos.advanced s.vel d } ∧
    (sp.update ⟨500⟩).state.pos = DerivablePoint.mk 5 0 := by
  constructor
  · rfl
  · simp only [Sprite.update, hb, List.map_cons, List.map_nil, List.foldl_cons, List.foldl_nil,
      Momentum, momentumUpdate, DerivablePoint.advanced, DerivablePoint.clone, Duration.s]
    simp [hp, hv]
    norm_num

/-- Closed witness for C2 at a concrete sprite. -/
theorem momentum_spec_witness :
    (Sprite.update ⟨some [Momentum], [], mkDemoState ⟨0, 0⟩ ⟨10, 0⟩ 0⟩ ⟨500⟩).state.pos
      = DerivablePoint.mk 5 0 :=
  (momentum_spec (mkDemoState ⟨0, 0⟩ ⟨10, 0⟩ 0) ⟨500⟩
    ⟨some [Momentum], [], mkDemoState ⟨0, 0⟩ ⟨10, 0⟩ 0⟩ rfl rfl rfl).2

theorem zeroPoint_mag : (DerivablePoint.mk 0 0).asDirMag.mag = 0 := by
  simp only [DerivablePoint.asDirMag, DerivablePoint.distFrom]
  norm_num

/-- C4: for positive `strength` and nonnegative `delta`, one `Friction`
update leaves the velocity magnitude equal to
`max 0 (priorMagnitude - strength * delta.s)` (never negative), becomes
exactly the zero vector when `strength * delta.s` reaches the prior
magnitude, and keeps the direction unchanged otherwise. -/
theorem friction_spec (strength : ℝ) (delta : Duration) (s : SpriteState)
    (hstr : 0 < strength) (hd : 0 ≤ delta.ms) :
    0 ≤ (frictionUpdate strength s delta).vel.asDirMag.mag ∧
    (frictionUpdate strength s delta).vel.asDirMag.mag
      = max 0 (s.vel.asDirMag.mag - strength * delta.s) ∧
    (s.vel.asDirMag.mag ≤ strength * delta.s →
      (frictionUpdate strength s delta).vel = DerivablePoint.mk 0 0) ∧
    (strength * delta.s < s.vel.asDirMag.mag →
      (frictionUpdate strength s delta).vel.asDirMag.dir = s.vel.asDirMag.dir) := by
  by_cases hc : strength * delta.s ≥ s.vel.asDirMag.mag
  · have hupd : (frictionUpdate strength s delta).vel = DerivablePoint.mk 0 0 := by
      simp only [frictionUpdate]
      rw [if_pos hc]
    refine ⟨?_, ?_, fun _ => hupd, ?_⟩
    · rw [hupd, zeroPoint_mag]
    · rw [hupd, zeroPoint_mag]
      exact (max_eq_left (sub_nonpos.mpr hc)).symm
    · intro hlt
      exact absurd hlt (not_lt.mpr hc)
  · have hlt : strength * delta.s < s.vel.asDirMag.mag := lt_of_not_ge hc
    have hpos : 0 < s.vel.asDirMag.mag - strength * delta.s := sub_pos.mpr hlt
    have hupd : (frictionUpdate strength s delta).vel
        = velocDM ⟨s.vel.asDirMag.dir, s.vel.asDirMag.mag - strength * delta.s⟩ := by
      simp only [frictionUpdate]
      rw [if_neg hc]
    have hdirIoc : s.vel.asDirMag.dir ∈ Set.Ioc (-Real.pi) Real.pi := by
      simp only [DerivablePoint.asDirMag]
      exact atan2_mem_Ioc _ _
    refine ⟨?_, ?_, ?_, ?_⟩
    · rw [hupd, velocDM_mag]
      exact abs_nonneg _
    · rw [hupd, velocDM_mag]
      rw [abs_of_pos hpos]
      exact (max_eq_right hpos.le).symm
    · intro hle
      exact absurd (lt_of_lt_of_le hlt hle) (lt_irrefl _)
    · intro _
      rw [hupd]
      exact velocDM_dir ⟨s.vel.asDirMag.dir, s.vel.asDirMag.mag - strength * delta.s⟩ hpos hdirIoc

/-- Closed witness for C4: `Friction(4)` over `1000 ms` on a velocity of
magnitude `2` yields the zero vector. -/
theorem friction_spec_witness :
    (frictionUpdate 4 (mkDemoState ⟨0, 0⟩ ⟨2, 0⟩ 0) ⟨1000⟩).vel = DerivablePoint.mk 0 0 := by
  apply (friction_spec 4 ⟨1000⟩ (mkDemoState ⟨0, 0⟩ ⟨2, 0⟩ 0) (by norm_num) (by norm_num)).2.2.1
  have hmag : (mkDemoState ⟨0, 0⟩ ⟨2, 0⟩ 0).vel.asDirMag.mag = 2 := by
    simp only [mkDemoState, DerivablePoint.asDirMag, DerivablePoint.distFrom]
    rw [show ((0 : ℝ) - 2) * ((0 : ℝ) - 2) + ((0 : ℝ) - 0) * ((0 : ℝ) - 0) = 2 ^ 2 by norm_num]
    rw [Real.sqrt_sq (by norm_num : (0 : ℝ) ≤ 2)]
  rw [hmag]
  simp only [Duration.s]
  norm_num

theorem rtpDesiredRot_abs_le (dest : DerivablePoint) (addRot : ℝ) (s : SpriteState) :
    |rtpDesiredRot dest addRot s| ≤ Real.pi := by
  have h0 := clampRadians_nonneg (rtpDesiredDir dest addRot s - s.rotation)
  have h2 := clampRadians_le (rtpDesiredDir dest addRot s - s.rotation)
  have hpi := Real.pi_pos
  simp only [rtpDesiredRot]
  by_cases hgt : clampRadians (rtpDesiredDir dest addRot s - s.rotation) > Real.pi
  · rw [if_pos hgt, abs_le]
    constructor <;> linarith
  · rw [if_neg hgt, abs_le]
    push_neg at hgt
    constructor <;> linarith

theorem rtpDesiredRot_congr (dest : DerivablePoint) (addRot : ℝ) (s : SpriteState) :
    ∃ k : ℤ, rtpDesiredRot dest addRot s - (rtpDesiredDir dest addRot s - s.rotation)
      = Real.pi * 2 * k := by
  obtain ⟨k, hk⟩ := clampRadians_congr (rtpDesiredDir dest addRot s - s.rotation)
  simp only [rtpDesiredRot]
  by_cases hgt : clampRadians (rtpDesiredDir dest addRot s - s.rotation) > Real.pi
  · rw [if_pos hgt]
    refine ⟨k - 1, ?_⟩
    push_cast
    have hr : Real.pi * 2 * ((k : ℝ) - 1) = Real.pi * 2 * (k : ℝ) - Real.pi * 2 := by ring
    rw [hr]
    linarith
  · rw [if_neg hgt]
    exact ⟨k, hk⟩

/-- C6: with nonnegative rotation speed and delta, a
`RotateToward`-family update leaves rotation unchanged when the target is
undefined; with a target, the rotation change is at most
`rotSpeed * delta.s` in absolute value, is a `[0,1]`-scaling of the
decided turn, and that decided turn is at most `π` in absolute value and
congruent (mod `2π`) to the difference between the desired facing angle
and the current rotation — the shorter angular path. -/
theorem rotateToward_spec (addRot rotSpeed : ℝ) (delta : Duration) (s : SpriteState)
    (hrs : 0 ≤ rotSpeed) (hd : 0 ≤ delta.ms) :
    rotateTowardPlusUpdate none addRot rotSpeed s delta = s ∧
    ∀ dest : DerivablePoint,
      |(rotateTowardPlusUpdate (some dest) addRot rotSpeed s delta).rotation - s.rotation|
          ≤ rotSpeed * delta.s ∧
      |rtpDesiredRot dest addRot s| ≤ Real.pi ∧
      (∃ c : ℝ, 0 ≤ c ∧ c ≤ 1 ∧
        (rotateTowardPlusUpdate (some dest) addRot rotSpeed s delta).rotation - s.rotation
          = c * rtpDesiredRot dest addRot s) ∧
      (∃ k : ℤ, rtpDesiredRot dest addRot s - (rtpDesiredDir dest addRot s - s.rotation)
          = Real.pi * 2 * k) := by
  refine ⟨rfl, fun dest => ?_⟩
  have hmax : 0 ≤ rotSpeed * delta.s :=
    mul_nonneg hrs (div_nonneg hd (by norm_num))
  have hch : (rotateTowardPlusUpdate (some dest) addRot rotSpeed s delta).rotation - s.rotation
      = rtpDesiredRot dest addRot s *
        (if rotSpeed * delta.s / |rtpDesiredRot dest addRot s| < 1
         then rotSpeed * delta.s / |rtpDesiredRot dest addRot s| else 1) := by
    simp only [rotateTowardPlusUpdate]
    ring
  set D := rtpDesiredRot dest addRot s with hDdef
  set scale := rotSpeed * delta.s / |D| with hscaledef
  set c := (if scale < 1 then scale else 1 : ℝ) with hcdef
  have hscale0 : 0 ≤ scale := div_nonneg hmax (abs_nonneg _)
  have hc0 : 0 ≤ c := by
    rw [hcdef]
    split_ifs
    · exact hscale0
    · norm_num
  have hc1 : c ≤ 1 := by
    rw [hcdef]
    split_ifs with h
    · exact h.le
    · exact le_refl 1
  refine ⟨?_, rtpDesiredRot_abs_le dest addRot s, ⟨c, hc0, hc1, by rw [hch]; ring⟩,
    rtpDesiredRot_congr dest addRot s⟩
  rw [hch, abs_mul, abs_of_nonneg hc0]
  by_cases hsl : scale < 1
  · rw [hcdef, if_pos hsl]
    by_cases hD0 : |D| = 0
    · rw [hD0, zero_mul]
      exact hmax
    · have hcancel : |D| * scale = rotSpeed * delta.s := by
        rw [hscaledef]
        field_simp
      rw [hcancel]
  · rw [hcdef, if_neg hsl, mul_one]
    have hD0 : |D| ≠ 0 := by
      intro h0
      apply hsl
      rw [hscaledef, h0, div_zero]
      norm_num
    have hDpos : 0 < |D| := lt_of_le_of_ne (abs_nonneg _) (Ne.symm hD0)
    have hone : 1 ≤ rotSpeed * delta.s / |D| := by
      rw [← hscaledef]
      exact not_lt.mp hsl
    exact (one_le_div hDpos).mp hone

/-- Closed witness for C6, the end-to-end scenario: `rotSpeed = π` rad/s,
rotation `0`, target directly to the sprite's right, `delta = 250 ms`;
the rotation change is at most `π * 0.25`. -/
theorem rotateToward_spec_witness :
    |(rotateTowardPlusUpdate (some ⟨1, 0⟩) 0 Real.pi (mkDemoState ⟨0, 0⟩ ⟨0, 0⟩ 0)
        ⟨250⟩).rotation - (mkDemoState ⟨0, 0⟩ ⟨0, 0⟩ 0).rotation|
      ≤ Real.pi * (Duration.mk 250).s :=
  ((rotateToward_spec 0 Real.pi ⟨250⟩ (mkDemoState ⟨0, 0⟩ ⟨0, 0⟩ 0)
      Real.pi_pos.le (by norm_num)).2 ⟨1, 0⟩).1

/-- C5 counterexample: register `{"L1": ["a"], "L2": ["a"]}` (the same
physical key in two associations) and hold `"a"`.  The claim says the
label `"L1"` must be in the pulse result, but `Keys.actions` wires each
key through `Keys.connect`, which overwrites the key's previous handler,
so only `"L2"` survives and `"L1"` is not reported. -/
theorem keys_pulse_counterexample :
    ¬ ((Keys.pulse (Keys.actions (fun _ => none) [("L1", ["a"]), ("L2", ["a"])]) ["a"] "L1"
          = true)
        ↔ ∃ k ∈ ["a"], associatedIn [("L1", ["a"]), ("L2", ["a"])] k "L1") := by
  decide

/-- C5 (amended): `Keys.pulse` returns exactly the labels `l` such that
some currently-held key's most recent association maps it to `l` (later
registrations for the same key overwrite earlier ones); in particular a
label none of whose keys is held is never returned, so every reported
label has at least one held key associated with it. -/
theorem keys_pulse_spec (m : List (Label × List Key)) (pressed : List Key) (l : Label) :
    (Keys.pulse (Keys.actions (fun _ => none) m) pressed l = true
      ↔ ∃ k ∈ pressed, lastAssoc m k = some l) ∧
    (Keys.pulse (Keys.actions (fun _ => none) m) pressed l = true
      → ∃ k ∈ pressed, associatedIn m k l) := by
  have hiff : Keys.pulse (Keys.actions (fun _ => none) m) pressed l = true
      ↔ ∃ k ∈ pressed, lastAssoc m k = some l := by
    rw [pulse_eq_true_iff]
    constructor
    · rintro ⟨k, hk, hc⟩
      exact ⟨k, hk, by rwa [actions_empty_lookup] at hc⟩
    · rintro ⟨k, hk, hc⟩
      exact ⟨k, hk, by rwa [actions_empty_lookup]⟩
  refine ⟨hiff, fun h => ?_⟩
  obtain ⟨k, hk, hc⟩ := hiff.mp h
  exact ⟨k, hk, lastAssoc_associatedIn hc⟩

/-- Closed witness for C5 (amended): with the overlapping registration
above and `"a"` held, the pulse result contains `"L2"` (the key's most
recent association). -/
theorem keys_pulse_spec_witness :
    Keys.pulse (Keys.actions (fun _ => none) [("L1", ["a"]), ("L2", ["a"])]) ["a"] "L2"
      = true :=
  (keys_pulse_spec [("L1", ["a"]), ("L2", ["a"])] ["a"] "L2").1.mpr (by decide)

/-- C7: one `Bounded` update invokes the callback (returns `some`) if and
only if the sprite's position lies outside the rectangle shrunk by the
sprite's body bounds on at least one axis; the exceedance passed along is
`0` on an axis within bounds, the negative overshoot past the left/top
side, and the positive overshoot past the right/bottom side. -/
theorem bounded_spec (drect : DynamicRect) (g : GameState) (s : SpriteState)
    (rect : Rect) (R : TLBR) (e : Exceed)
    (hrect : rect = shrinkRect (getRect drect g s) s.bodyBounds)
    (hR : R = getTLBR rect) (he : e = exceedsBounds s.pos rect) :
    (boundedUpdate drect g s = some (rect, e)
      ↔ (s.pos.x < R.l ∨ R.r < s.pos.x ∨ s.pos.y < R.t ∨ R.b < s.pos.y)) ∧
    (boundedUpdate drect g s = none
      ↔ ¬(s.pos.x < R.l ∨ R.r < s.pos.x ∨ s.pos.y < R.t ∨ R.b < s.pos.y)) ∧
    (R.l ≤ s.pos.x → s.pos.x ≤ R.r → e.x = 0) ∧
    (s.pos.x < R.l → e.x = s.pos.x - R.l ∧ e.x < 0) ∧
    (R.l ≤ s.pos.x → R.r < s.pos.x → e.x = s.pos.x - R.r ∧ 0 < e.x) ∧
    (R.t ≤ s.pos.y → s.pos.y ≤ R.b → e.y = 0) ∧
    (s.pos.y < R.t → e.y = s.pos.y - R.t ∧ e.y < 0) ∧
    (R.t ≤ s.pos.y → R.b < s.pos.y → e.y = s.pos.y - R.b ∧ 0 < e.y) := by
  subst he
  subst hR
  subst hrect
  set rect := shrinkRect (getRect drect g s) s.bodyBounds with hrectdef
  set T := getTLBR rect with hTdef
  have hex : exceedsBounds s.pos rect
      = ⟨if s.pos.x < T.l then s.pos.x - T.l
          else if s.pos.x > T.r then s.pos.x - T.r else 0,
         if s.pos.y < T.t then s.pos.y - T.t
          else if s.pos.y > T.b then s.pos.y - T.b else 0⟩ := rfl
  have hxne : (exceedsBounds s.pos rect).x ≠ 0 ↔ (s.pos.x < T.l ∨ T.r < s.pos.x) := by
    rw [hex]
    by_cases h1 : s.pos.x < T.l
    · simp only [if_pos h1]
      exact iff_of_true (sub_ne_zero.mpr (ne_of_lt h1)) (Or.inl h1)
    · by_cases h2 : T.r < s.pos.x
      · simp only [if_neg h1, if_pos h2]
        exact iff_of_true (sub_ne_zero.mpr (ne_of_gt h2)) (Or.inr h2)
      · simp only [if_neg h1, if_neg h2]
        simp [h1, h2]
  have hyne : (exceedsBounds s.pos rect).y ≠ 0 ↔ (s.pos.y < T.t ∨ T.b < s.pos.y) := by
    rw [hex]
    by_cases h1 : s.pos.y < T.t
    · simp only [if_pos h1]
      exact iff_of_true (sub_ne_zero.mpr (ne_of_lt h1)) (Or.inl h1)
    · by_cases h2 : T.b < s.pos.y
      · simp only [if_neg h1, if_pos h2]
        exact iff_of_true (sub_ne_zero.mpr (ne_of_gt h2)) (Or.inr h2)
      · simp only [if_neg h1, if_neg h2]
        simp [h1, h2]
  have hiff : testExceed (exceedsBounds s.pos rect)
      ↔ (s.pos.x < T.l ∨ T.r < s.pos.x ∨ s.pos.y < T.t ∨ T.b < s.pos.y) := by
    unfold testExceed
    rw [hxne, hyne]
    tauto
  have hbu : boundedUpdate drect g s
      = if testExceed (exceedsBounds s.pos rect)
        then some (rect, exceedsBounds s.pos rect) else none := rfl
  refine ⟨?_, ?_, ?_, ?_, ?_, ?_, ?_, ?_⟩
  · rw [hbu]
    by_cases ht : testExceed (exceedsBounds s.pos rect)
    · rw [if_pos ht]
      exact iff_of_true rfl (hiff.mp ht)
    · rw [if_neg ht]
      exact iff_of_false (by simp) (fun hd => ht (hiff.mpr hd))
  · rw [hbu]
    by_cases ht : testExceed (exceedsBounds s.pos rect)
    · rw [if_pos ht]
      exact iff_of_false (by simp) (fun hd => hd (hiff.mp ht))
    · rw [if_neg ht]
      exact iff_of_true rfl (fun hd => ht (hiff.mpr hd))
  · intro h1 h2
    rw [hex]
    simp only []
    rw [if_neg (not_lt.mpr h1), if_neg (not_lt.mpr h2)]
  · intro h1
    rw [hex]
    simp only [if_pos h1]
    exact ⟨trivial, sub_neg.mpr h1⟩
  · intro h1 h2
    rw [hex]
    simp only [if_neg (not_lt.mpr h1), if_pos h2]
    exact ⟨trivial, sub_pos.mpr h2⟩
  · intro h1 h2
    rw [hex]
    simp only []
    rw [if_neg (not_lt.mpr h1), if_neg (not_lt.mpr h2)]
  · intro h1
    rw [hex]
    simp only [if_pos h1]
    exact ⟨trivial, sub_neg.mpr h1⟩
  · intro h1 h2
    rw [hex]
    simp only [if_neg (not_lt.mpr h1), if_pos h2]
    exact ⟨trivial, sub_pos.mpr h2⟩

/-- Closed witness for C7: a sprite at `(20, 5)` with a point body checked
against the rectangle `{t:0, l:0, b:10, r:10}` fires the callback with the
positive x overshoot `10`. -/
theorem bounded_spec_witness :
    boundedUpdate (DynamicRect.rect (Rect.tlbr ⟨0, 0, 10, 10⟩)) demoGame
        (mkDemoState ⟨20, 5⟩ ⟨0, 0⟩ 0)
      = some (shrinkRect (getRect (DynamicRect.rect (Rect.tlbr ⟨0, 0, 10, 10⟩)) demoGame
                (mkDemoState ⟨20, 5⟩ ⟨0, 0⟩ 0))
              (mkDemoState ⟨20, 5⟩ ⟨0, 0⟩ 0).bodyBounds,
             exceedsBounds (mkDemoState ⟨20, 5⟩ ⟨0, 0⟩ 0).pos
               (shrinkRect (getRect (DynamicRect.rect (Rect.tlbr ⟨0, 0, 10, 10⟩)) demoGame
                 (mkDemoState ⟨20, 5⟩ ⟨0, 0⟩ 0))
                (mkDemoState ⟨20, 5⟩ ⟨0, 0⟩ 0).bodyBounds)) := by
  apply (bounded_spec (DynamicRect.rect (Rect.tlbr ⟨0, 0, 10, 10⟩)) demoGame
      (mkDemoState ⟨20, 5⟩ ⟨0, 0⟩ 0) _ _ _ rfl rfl rfl).1.mpr
  right
  left
  show (getTLBR (shrinkRect (getRect (DynamicRect.rect (Rect.tlbr ⟨0, 0, 10, 10⟩)) demoGame
      (mkDemoState ⟨20, 5⟩ ⟨0, 0⟩ 0)) (mkDemoState ⟨20, 5⟩ ⟨0, 0⟩ 0).bodyBounds)).r
    < (mkDemoState ⟨20, 5⟩ ⟨0, 0⟩ 0).pos.x
  norm_num [getTLBR, shrinkRect, getRect, mkDemoState]
